import Mathlib

/-
Verification development for the Simple Language Learning Tool
(a console French-English vocabulary quiz, `src/main.py`).

Strings are modelled as lists of character codes (`Str := List Nat`),
Python string primitives (`lower`, `strip`, `rstrip("...")`, `split`,
`join`) as functions on such lists, the CSV files at the record level,
and the interactive quiz loop as a recursive function consuming a list
of user inputs and producing the final store state together with the
list of printed messages.
-/

namespace LangTool

/-- Strings are lists of character codes. -/
abbrev Str := List Nat

/-- Python `str.lower` on one character code (ASCII case folding). -/
def lowerChar (c : Nat) : Nat := if 65 ≤ c ∧ c ≤ 90 then c + 32 else c

/-- Whitespace characters stripped by Python `str.strip()`. -/
def isSpaceChar (c : Nat) : Bool :=
  c = 32 || c = 9 || c = 10 || c = 13 || c = 11 || c = 12

/-- The character `.` (code 46), the only character of `rstrip("...")`'s set. -/
def isDotChar (c : Nat) : Bool := c = 46

/-- Python `str.lower`. -/
def pyLower (s : Str) : Str := s.map lowerChar

/-- Drop the longest suffix of `s` whose characters satisfy `p`. -/
def rdropWhile (p : Nat → Bool) (s : Str) : Str :=
  (s.reverse.dropWhile p).reverse

/-- Python `str.rstrip("...")`: remove all trailing `.` characters. -/
def pyRstripDots (s : Str) : Str := rdropWhile isDotChar s

/-- Python `str.strip()`: remove leading and trailing whitespace. -/
def pyStrip (s : Str) : Str := rdropWhile isSpaceChar (s.dropWhile isSpaceChar)

/-- Python `str.split(sep)` for a one-character separator; yields `[""]`
on the empty string, like Python. -/
def pySplit (sep : Nat) : Str → List Str
  | [] => [[]]
  | c :: t =>
    match pySplit sep t with
    | [] => if c = sep then [[], []] else [[c]]
    | h :: r => if c = sep then [] :: h :: r else (c :: h) :: r

/-- Python `", ".join`. -/
def joinCS (xs : List Str) : Str := List.intercalate [44, 32] xs

/-- The answer normalization of `play_game`:
`s.lower().rstrip("...").strip()`. -/
def normalize (s : Str) : Str := pyStrip (pyRstripDots (pyLower s))

/-- The quit token `"q"`. -/
def tokQ : Str := [113]

/-- The save token `"s"`. -/
def tokS : Str := [115]

/-- The token `"add word"`. -/
def tokAddWord : Str := [97, 100, 100, 32, 119, 111, 114, 100]

/-- The direction choice `"1"` (English to French). -/
def tokOne : Str := [49]

/-- The direction choice `"2"` (French to English). -/
def tokTwo : Str := [50]

/-! ### Progress store (`add_incorrect_word`) -/

/-- Python dict assignment `d[k] = v` on an insertion-ordered
association list: updates the value in place if the key is present,
appends the pair otherwise. -/
def dictSet : List (Str × Nat) → Str → Nat → List (Str × Nat)
  | [], k, v => [(k, v)]
  | (k', v') :: t, k, v =>
    if k = k' then (k', v) :: t else (k', v') :: dictSet t k v

/-- Python `d.get(k, dflt)` on an association list (first match). -/
def dictGetD : List (Str × Nat) → Str → Nat → Nat
  | [], _, dflt => dflt
  | (k', v') :: t, k, dflt => if k = k' then v' else dictGetD t k dflt

/-- The keys of an association list, in order. -/
def keys (d : List (Str × Nat)) : List Str := d.map Prod.fst

/-- Reading the progress file into a Python dict: rows are inserted in
order, a duplicate key silently overwrites the earlier value in place. -/
def buildDict (rows : List (Str × Nat)) : List (Str × Nat) :=
  rows.foldl (fun d kv => dictSet d kv.1 kv.2) []

/-- `add_incorrect_word` at the record level: read the whole progress
record into a dict, increment the count of `word` (defaulting to 0),
and write the whole dict back out. -/
def add_incorrect_word (rec : List (Str × Nat)) (word : Str) : List (Str × Nat) :=
  let d := buildDict rec
  dictSet d word (dictGetD d word 0 + 1)

/-- The count stored for `w` in a progress record, as the program itself
reads it back (via the dict, so a duplicated raw key reads as its last
value), defaulting to 0. -/
def storedCount (rec : List (Str × Nat)) (w : Str) : Nat :=
  dictGetD (buildDict rec) w 0

/-! ### Translation store (`load_dictionary`) -/

/-- One loaded entry: the English phrase group and the translation group. -/
abbrev Entry := List Str × List Str

/-- How `load_dictionary` can fail: the `os.path.exists` check, or any
exception while reading (`IndexError` on a short row, `StopIteration`
on a file with no header); both paths print an error and `exit(1)`. -/
inductive LoadErr where
  | notFound
  | formatErr
deriving DecidableEq, Repr

/-- The row loop of `load_dictionary`: each row must have at least two
fields (`row[0]`, `row[1]`, further fields are never read); both are
split on commas. A shorter row raises `IndexError`, caught by the
catch-all handler. -/
def parseBody : List (List Str) → Except LoadErr (List Entry)
  | [] => Except.ok []
  | r :: t =>
    match r with
    | a :: b :: _ =>
      match parseBody t with
      | Except.ok es => Except.ok ((pySplit 44 a, pySplit 44 b) :: es)
      | Except.error e => Except.error e
    | _ => Except.error LoadErr.formatErr

/-- `load_dictionary`: `none` models a missing file; otherwise the file
is the list of its CSV rows, the first of which is skipped as the
header (`next(reader)` on an empty file raises, hence a format error). -/
def load_dictionary : Option (List (List Str)) → Except LoadErr (List Entry)
  | none => Except.error LoadErr.notFound
  | some [] => Except.error LoadErr.formatErr
  | some (_ :: body) => parseBody body

/-! ### Per-user files (`create_user_files`) -/

/-- The two per-user files, at the record level; `none` means the file
does not exist. -/
structure FS where
  progressFile : Option (List (Str × Nat))
  dictFile : Option (List (Str × Str))
deriving DecidableEq, Repr

/-- `create_user_files`: only the existence of the progress file is
tested; if it is missing, header-only progress and personal-dictionary
files are both (re)written; otherwise nothing is touched. -/
def create_user_files (fs : FS) : FS :=
  if fs.progressFile.isNone then
    { progressFile := some [], dictFile := some [] }
  else fs

/-! ### Quiz engine (`play_game` and its helpers) -/

/-- `get_prompt_answer`: for choice `"1"` the prompt is a random English
phrase and the accepted answers are the translations; for any other
choice the prompt is a random translation and the accepted answers are
the English phrases. `random.choice` is modelled by an index `k`, taken
modulo the list length. -/
def get_prompt_answer (translation_direction : Str)
    (english_phrases target_translations : List Str) (k : Nat) : Str × List Str :=
  if translation_direction = tokOne then
    (english_phrases.getD (k % english_phrases.length) [], target_translations)
  else
    (target_translations.getD (k % target_translations.length) [], english_phrases)

/-- The state of the two per-user stores during a game: the parsed
progress record and the rows of the personal dictionary file. -/
structure GState where
  progress : List (Str × Nat)
  saved : List (Str × Str)
deriving DecidableEq, Repr

/-- `save_word`: append one `(word, translation)` row to the personal
dictionary file. -/
def save_word (saved : List (Str × Str)) (user_input word : Str) : List (Str × Str) :=
  saved ++ [(user_input, word)]

/-- Console messages the program prints, one constructor per `print`
site of the source. -/
inductive Msg where
  | instructions
  | usernamePrompt
  | welcomeNew (u : Str)
  | welcomeBack (u : Str)
  | directionMenu
  | invalidChoice
  | fileNotFound
  | fileReadError
  | translatePrompt (p : Str)
  | exitGame
  | savedWord
  | enterEnglish
  | enterFrench
  | addedWord
  | correct
  | wrongAttempts (n : Nat)
  | wrongReveal (a : Str)
deriving DecidableEq, Repr

/-- How one entry's attempt loop can end: the player quit the whole
session, the loop finished normally (correct answer or attempts
exhausted), or the supply of scripted inputs ran out. -/
inductive EOut where
  | quit
  | done
  | eof
deriving DecidableEq, Repr

/-- Result of running one entry's attempt loop: the outcome, the store
state, the unconsumed inputs, and the messages printed. -/
structure EntryRes where
  outcome : EOut
  state : GState
  rest : List Str
  out : List Msg
deriving DecidableEq, Repr

/-- The `while attempts > 0` loop of `play_game` for one entry, driven
by the list of remaining user inputs. Each iteration prints the prompt,
reads an input, pre-processes it (`rstrip("...").strip()`), checks the
reserved tokens on its stripped lowercase form, and otherwise matches
its normalized form against the normalized accepted answers; a wrong
answer decrements `attempts` and appends the prompt to the progress
record. -/
def entryLoop (username : Str) (prompt : Str) (answers : List Str) :
    Nat → List Str → GState → EntryRes
  | attempts, [], s =>
    if attempts = 0 then ⟨EOut.done, s, [], []⟩
    else ⟨EOut.eof, s, [], [Msg.translatePrompt prompt]⟩
  | attempts, i :: rest, s =>
    if attempts = 0 then ⟨EOut.done, s, i :: rest, []⟩
    else
      let u := pyStrip (pyRstripDots i)
      let c := pyStrip (pyLower u)
      if c = tokQ then
        ⟨EOut.quit, s, rest, [Msg.translatePrompt prompt, Msg.exitGame]⟩
      else if c = tokS then
        let r := entryLoop username prompt answers attempts rest
          { s with saved := save_word s.saved prompt (joinCS answers) }
        ⟨r.outcome, r.state, r.rest, Msg.translatePrompt prompt :: Msg.savedWord :: r.out⟩
      else if c = tokAddWord then
        match rest with
        | e :: f :: rest2 =>
          let r := entryLoop username prompt answers attempts rest2
            { s with saved := save_word s.saved e f }
          ⟨r.outcome, r.state, r.rest,
            Msg.translatePrompt prompt :: Msg.enterEnglish :: Msg.enterFrench ::
              Msg.addedWord :: r.out⟩
        | _ => ⟨EOut.eof, s, [], [Msg.translatePrompt prompt]⟩
      else
        let m := pyStrip (pyRstripDots (pyLower u))
        if m ∈ answers.map normalize then
          ⟨EOut.done, s, rest, [Msg.translatePrompt prompt, Msg.correct]⟩
        else
          let s' := { s with progress := add_incorrect_word s.progress prompt }
          if attempts - 1 = 0 then
            ⟨EOut.done, s', rest, [Msg.translatePrompt prompt, Msg.wrongReveal (joinCS answers)]⟩
          else
            let r := entryLoop username prompt answers (attempts - 1) rest s'
            ⟨r.outcome, r.state, r.rest,
              Msg.translatePrompt prompt :: Msg.wrongAttempts (attempts - 1) :: r.out⟩

/-- The entry loop of `play_game`: each entry gets a prompt and answer
set from `get_prompt_answer` (one random index per entry from `picks`)
and three attempts; the session stops early if an entry loop reports a
quit (or runs out of scripted inputs). -/
def play_game (username : Str) (choice : Str) :
    List Entry → List Nat → List Str → GState → GState × List Msg
  | [], _, _, s => (s, [])
  | (english_items, translations) :: es, picks, inputs, s =>
    let pa := get_prompt_answer choice english_items translations (picks.headD 0)
    let r := entryLoop username pa.1 pa.2 3 inputs s
    match r.outcome with
    | EOut.done =>
      let rest := play_game username choice es picks.tail r.rest r.state
      (rest.1, r.out ++ rest.2)
    | _ => (r.state, r.out)

/-! ### Session controller (`main` and `select_translation_direction`) -/

/-- The retry loop of `select_translation_direction`: keep reading
inputs, stripping each, until one is `"1"` or `"2"`; report `none` if
the inputs run out. -/
def selDirLoop : List Str → Option (Str × List Str) × List Msg
  | [] => (none, [])
  | i :: rest =>
    let c := pyStrip i
    if c = tokOne ∨ c = tokTwo then (some (c, rest), [])
    else
      let r := selDirLoop rest
      (r.1, Msg.invalidChoice :: r.2)

/-- `select_translation_direction`: print the menu, then loop until a
valid (stripped) choice is entered. -/
def select_translation_direction (inputs : List Str) :
    Option (Str × List Str) × List Msg :=
  let r := selDirLoop inputs
  (r.1, Msg.directionMenu :: r.2)

/-- How a whole session can end: `main` returned normally, the process
called `exit(1)` while loading the translation file, or the scripted
inputs ran out. -/
inductive MainEnd where
  | finished (g : GState)
  | exitedNotFound
  | exitedFormat
  | abortedInput
deriving DecidableEq, Repr

/-- The welcome message printed by `create_user_files`. -/
def welcomeMsgs (u : Str) (fs : FS) : List Msg :=
  if fs.progressFile.isNone then [Msg.welcomeNew u] else [Msg.welcomeBack u]

/-- The initial game state after `create_user_files`: the two per-user
files read at the record level (an absent file reads as empty). -/
def initState (fs : FS) : GState :=
  { progress := fs.progressFile.getD [], saved := fs.dictFile.getD [] }

/-- `main`: print the instructions, read the username, create the
per-user files, select a direction, load and shuffle the translation
file (the shuffle is modelled by the reordering function `shuffleFn`),
and run `play_game`. Nothing is printed after `play_game` returns. -/
def mainRun (u : Str) (inputs : List Str) (file : Option (List (List Str)))
    (shuffleFn : List Entry → List Entry) (picks : List Nat) (fs : FS) :
    MainEnd × List Msg :=
  let fs1 := create_user_files fs
  let pre := [Msg.instructions, Msg.usernamePrompt] ++ welcomeMsgs u fs
  let dsel := select_translation_direction inputs
  match dsel.1 with
  | none => (MainEnd.abortedInput, pre ++ dsel.2)
  | some (choice, rest) =>
    match load_dictionary file with
    | Except.error LoadErr.notFound =>
      (MainEnd.exitedNotFound, pre ++ dsel.2 ++ [Msg.fileNotFound])
    | Except.error LoadErr.formatErr =>
      (MainEnd.exitedFormat, pre ++ dsel.2 ++ [Msg.fileReadError])
    | Except.ok entries =>
      let g := play_game u choice (shuffleFn entries) picks rest (initState fs1)
      (MainEnd.finished g.1, pre ++ dsel.2 ++ g.2)

/-! ### Classification of user inputs -/

/-- The reserved-token test for `q`: the pre-processed input, lowercased
and stripped, equals `"q"`. -/
abbrev quitInput (i : Str) : Prop := pyStrip (pyLower (pyStrip (pyRstripDots i))) = tokQ

/-- The reserved-token test for `s`. -/
abbrev saveInput (i : Str) : Prop := pyStrip (pyLower (pyStrip (pyRstripDots i))) = tokS

/-- The reserved-token test for `add word`. -/
abbrev addInput (i : Str) : Prop := pyStrip (pyLower (pyStrip (pyRstripDots i))) = tokAddWord

/-- An input that is not reserved and whose normalized form matches no
normalized accepted answer. -/
abbrev wrongInput (i : Str) (answers : List Str) : Prop :=
  ¬ quitInput i ∧ ¬ saveInput i ∧ ¬ addInput i ∧
    pyStrip (pyRstripDots (pyLower (pyStrip (pyRstripDots i)))) ∉ answers.map normalize

/-- An input that is not reserved and whose normalized form matches some
normalized accepted answer. -/
abbrev correctInput (i : Str) (answers : List Str) : Prop :=
  ¬ quitInput i ∧ ¬ saveInput i ∧ ¬ addInput i ∧
    pyStrip (pyRstripDots (pyLower (pyStrip (pyRstripDots i)))) ∈ answers.map normalize

/-! ### Lemmas about the string primitives -/

theorem lowerChar_lowerChar (c : Nat) : lowerChar (lowerChar c) = lowerChar c := by
  unfold lowerChar
  split
  · rw [if_neg (by omega)]
  · rfl

theorem isSpaceChar_lowerChar (c : Nat) : isSpaceChar (lowerChar c) = isSpaceChar c := by
  unfold lowerChar
  split
  · next h =>
    have h1 : isSpaceChar (c + 32) = false := by simp only [isSpaceChar]; simp; omega
    have h2 : isSpaceChar c = false := by simp only [isSpaceChar]; simp; omega
    rw [h1, h2]
  · rfl

theorem isDotChar_lowerChar (c : Nat) : isDotChar (lowerChar c) = isDotChar c := by
  unfold lowerChar
  split
  · next h =>
    have h1 : isDotChar (c + 32) = false := by simp only [isDotChar]; simp; omega
    have h2 : isDotChar c = false := by simp only [isDotChar]; simp; omega
    rw [h1, h2]
  · rfl

theorem dropWhile_pyLower (p : Nat → Bool) (hp : ∀ c, p (lowerChar c) = p c) (s : Str) :
    (pyLower s).dropWhile p = pyLower (s.dropWhile p) := by
  induction s with
  | nil => rfl
  | cons c t ih =>
    simp only [pyLower, List.map_cons, List.dropWhile_cons, hp c]
    cases h : p c
    · simp [h]
    · simpa [h] using ih

theorem pyLower_reverse (s : Str) : pyLower s.reverse = (pyLower s).reverse := by
  simp [pyLower]

theorem rdropWhile_pyLower (p : Nat → Bool) (hp : ∀ c, p (lowerChar c) = p c) (s : Str) :
    rdropWhile p (pyLower s) = pyLower (rdropWhile p s) := by
  unfold rdropWhile
  rw [← pyLower_reverse, dropWhile_pyLower p hp, pyLower_reverse]

theorem pyLower_pyStrip (s : Str) : pyLower (pyStrip s) = pyStrip (pyLower s) := by
  unfold pyStrip
  rw [← rdropWhile_pyLower _ isSpaceChar_lowerChar, ← dropWhile_pyLower _ isSpaceChar_lowerChar]

theorem pyLower_pyRstripDots (s : Str) : pyLower (pyRstripDots s) = pyRstripDots (pyLower s) := by
  unfold pyRstripDots
  rw [← rdropWhile_pyLower _ isDotChar_lowerChar]

theorem head?_dropWhile_false (p : Nat → Bool) :
    ∀ (l : Str) (c : Nat), (l.dropWhile p).head? = some c → p c = false := by
  intro l
  induction l with
  | nil => intro c h; simp at h
  | cons a t ih =>
    intro c h
    rw [List.dropWhile_cons] at h
    by_cases ha : p a
    · rw [if_pos ha] at h; exact ih c h
    · rw [if_neg ha] at h
      simp only [List.head?_cons, Option.some.injEq] at h
      subst h
      exact Bool.eq_false_iff.mpr ha

theorem dropWhile_eq_self_of_head (p : Nat → Bool) (l : Str)
    (h : ∀ c, l.head? = some c → p c = false) : l.dropWhile p = l := by
  cases l with
  | nil => rfl
  | cons a t =>
    rw [List.dropWhile_cons, if_neg]
    simp [h a rfl]

theorem exists_dropWhile_append (p : Nat → Bool) (l : Str) :
    ∃ t, l = t ++ l.dropWhile p := by
  induction l with
  | nil => exact ⟨[], rfl⟩
  | cons a t ih =>
    by_cases ha : p a
    · obtain ⟨u, hu⟩ := ih
      refine ⟨a :: u, ?_⟩
      rw [List.dropWhile_cons, if_pos ha, List.cons_append, ← hu]
    · exact ⟨[], by rw [List.dropWhile_cons, if_neg ha]; rfl⟩

theorem head?_rdropWhile (p : Nat → Bool) (l : Str) (c : Nat)
    (h : (rdropWhile p l).head? = some c) : l.head? = some c := by
  obtain ⟨t, ht⟩ := exists_dropWhile_append p l.reverse
  have hl : l = rdropWhile p l ++ t.reverse := by
    unfold rdropWhile
    calc l = l.reverse.reverse := (List.reverse_reverse l).symm
    _ = (t ++ l.reverse.dropWhile p).reverse := by rw [← ht]
    _ = (l.reverse.dropWhile p).reverse ++ t.reverse := by rw [List.reverse_append]
  rw [hl]
  cases hres : rdropWhile p l with
  | nil => rw [hres] at h; simp at h
  | cons x xs =>
    rw [hres] at h
    simp only [List.head?_cons, Option.some.injEq] at h
    simpa using h

theorem head?_pyStrip (s : Str) (c : Nat) (h : (pyStrip s).head? = some c) :
    isSpaceChar c = false :=
  head?_dropWhile_false _ _ _ (head?_rdropWhile _ _ _ h)

theorem revhead?_pyStrip (s : Str) (c : Nat) (h : (pyStrip s).reverse.head? = some c) :
    isSpaceChar c = false := by
  unfold pyStrip rdropWhile at h
  rw [List.reverse_reverse] at h
  exact head?_dropWhile_false _ _ _ h

theorem rdropWhile_eq_self_of_revhead (p : Nat → Bool) (l : Str)
    (h : ∀ c, l.reverse.head? = some c → p c = false) : rdropWhile p l = l := by
  unfold rdropWhile
  rw [dropWhile_eq_self_of_head p _ h, List.reverse_reverse]

theorem pyStrip_eq_self (s : Str)
    (h1 : ∀ c, s.head? = some c → isSpaceChar c = false)
    (h2 : ∀ c, s.reverse.head? = some c → isSpaceChar c = false) : pyStrip s = s := by
  unfold pyStrip
  rw [dropWhile_eq_self_of_head _ _ h1, rdropWhile_eq_self_of_revhead _ _ h2]

theorem pyStrip_pyStrip (s : Str) : pyStrip (pyStrip s) = pyStrip s :=
  pyStrip_eq_self _ (head?_pyStrip s) (revhead?_pyStrip s)

theorem mem_of_mem_dropWhile (p : Nat → Bool) (l : Str) (c : Nat)
    (h : c ∈ l.dropWhile p) : c ∈ l :=
  (List.dropWhile_sublist p).mem h

theorem mem_of_mem_rdropWhile (p : Nat → Bool) (l : Str) (c : Nat)
    (h : c ∈ rdropWhile p l) : c ∈ l := by
  unfold rdropWhile at h
  rw [List.mem_reverse] at h
  have := mem_of_mem_dropWhile p _ _ h
  rwa [List.mem_reverse] at this

theorem mem_of_mem_pyStrip (s : Str) (c : Nat) (h : c ∈ pyStrip s) : c ∈ s :=
  mem_of_mem_dropWhile _ _ _ (mem_of_mem_rdropWhile _ _ _ h)

theorem mem_of_mem_pyRstripDots (s : Str) (c : Nat) (h : c ∈ pyRstripDots s) : c ∈ s :=
  mem_of_mem_rdropWhile _ _ _ h

theorem mem_pyLower_of_mem_normalize (s : Str) (c : Nat) (h : c ∈ normalize s) :
    c ∈ pyLower s :=
  mem_of_mem_pyRstripDots _ _ (mem_of_mem_pyStrip _ _ h)

theorem lowerChar_eq_self_of_mem_pyLower (s : Str) (c : Nat) (h : c ∈ pyLower s) :
    lowerChar c = c := by
  obtain ⟨a, _, ha⟩ := List.mem_map.mp h
  rw [← ha]
  exact lowerChar_lowerChar a

theorem pyLower_eq_self (s : Str) (h : ∀ c ∈ s, lowerChar c = c) : pyLower s = s := by
  induction s with
  | nil => rfl
  | cons c t ih =>
    simp only [pyLower, List.map_cons]
    rw [h c (List.mem_cons_self c t)]
    rw [show List.map lowerChar t = pyLower t from rfl,
      ih fun d hd => h d (List.mem_cons_of_mem c hd)]

theorem pyLower_normalize (s : Str) : pyLower (normalize s) = normalize s :=
  pyLower_eq_self _ fun c hc =>
    lowerChar_eq_self_of_mem_pyLower _ _ (mem_pyLower_of_mem_normalize s c hc)

/-- The token form checked by the reserved-input tests
(`user_input.lower().strip()` applied to the pre-processed input) is
exactly the normalized form used for answer matching. -/
theorem checkForm_eq_normalize (a : Str) :
    pyStrip (pyLower (pyStrip (pyRstripDots a))) = normalize a := by
  rw [pyLower_pyStrip, pyLower_pyRstripDots]
  exact pyStrip_pyStrip _

/-! ### Lemmas about the progress store -/

theorem dictGetD_dictSet_self (d : List (Str × Nat)) (k : Str) (v : Nat) :
    dictGetD (dictSet d k v) k 0 = v := by
  induction d with
  | nil => simp [dictSet, dictGetD]
  | cons kv t ih =>
    obtain ⟨k', v'⟩ := kv
    by_cases h : k = k'
    · simp [dictSet, dictGetD, h]
    · simp [dictSet, dictGetD, h, ih]

theorem dictGetD_dictSet_ne (d : List (Str × Nat)) (k k' : Str) (v : Nat) (h : k' ≠ k) :
    dictGetD (dictSet d k v) k' 0 = dictGetD d k' 0 := by
  induction d with
  | nil => simp [dictSet, dictGetD, h]
  | cons kv t ih =>
    obtain ⟨a, b⟩ := kv
    by_cases ha : k = a
    · subst ha
      simp [dictSet, dictGetD, h]
    · by_cases hb : k' = a
      · simp [dictSet, dictGetD, ha, hb]
      · simp [dictSet, dictGetD, ha, hb, ih]

theorem mem_keys_dictSet (d : List (Str × Nat)) (k a : Str) (v : Nat) :
    a ∈ keys (dictSet d k v) ↔ a ∈ keys d ∨ a = k := by
  induction d with
  | nil => simp [dictSet, keys]
  | cons kv t ih =>
    obtain ⟨k', v'⟩ := kv
    by_cases h : k = k'
    · subst h
      simp only [dictSet, if_pos rfl, keys, List.map_cons]
      constructor
      · rintro h'
        rcases List.mem_cons.mp h' with h' | h'
        · exact Or.inl (List.mem_cons.mpr (Or.inl h'))
        · exact Or.inl (List.mem_cons.mpr (Or.inr h'))
      · rintro (h' | rfl)
        · exact h'
        · exact List.mem_cons.mpr (Or.inl rfl)
    · simp only [dictSet, if_neg h, keys, List.map_cons, List.mem_cons]
      rw [show List.map Prod.fst (dictSet t k v) = keys (dictSet t k v) from rfl, ih]
      rw [show List.map Prod.fst t = keys t from rfl]
      tauto

theorem nodup_keys_dictSet (d : List (Str × Nat)) (k : Str) (v : Nat)
    (h : (keys d).Nodup) : (keys (dictSet d k v)).Nodup := by
  induction d with
  | nil => simp [dictSet, keys]
  | cons kv t ih =>
    obtain ⟨k', v'⟩ := kv
    simp only [keys, List.map_cons, List.nodup_cons] at h
    by_cases hk : k = k'
    · subst hk
      simpa [dictSet, keys, List.nodup_cons] using h
    · simp only [dictSet, if_neg hk, keys, List.map_cons, List.nodup_cons]
      refine ⟨?_, ih h.2⟩
      intro hmem
      rw [show List.map Prod.fst (dictSet t k v) = keys (dictSet t k v) from rfl] at hmem
      rcases (mem_keys_dictSet t k k' v).mp hmem with h' | h'
      · exact h.1 h'
      · exact hk h'.symm

theorem dictSet_eq_append_of_not_mem (d : List (Str × Nat)) (k : Str) (v : Nat)
    (h : k ∉ keys d) : dictSet d k v = d ++ [(k, v)] := by
  induction d with
  | nil => rfl
  | cons kv t ih =>
    obtain ⟨k', v'⟩ := kv
    simp only [keys, List.map_cons, List.mem_cons] at h
    push_neg at h
    simp only [dictSet, if_neg h.1, List.cons_append]
    rw [ih h.2]

theorem dictGetD_eq_default_of_not_mem (d : List (Str × Nat)) (k : Str) (dflt : Nat)
    (h : k ∉ keys d) : dictGetD d k dflt = dflt := by
  induction d with
  | nil => rfl
  | cons kv t ih =>
    obtain ⟨k', v'⟩ := kv
    simp only [keys, List.map_cons, List.mem_cons] at h
    push_neg at h
    simp only [dictGetD, if_neg h.1]
    exact ih h.2

theorem nodup_keys_foldl (rows : List (Str × Nat)) :
    ∀ acc : List (Str × Nat), (keys acc).Nodup →
      (keys (rows.foldl (fun d kv => dictSet d kv.1 kv.2) acc)).Nodup := by
  induction rows with
  | nil => intro acc h; exact h
  | cons kv t ih =>
    intro acc h
    exact ih _ (nodup_keys_dictSet acc kv.1 kv.2 h)

theorem nodup_keys_buildDict (rows : List (Str × Nat)) : (keys (buildDict rows)).Nodup :=
  nodup_keys_foldl rows [] (by simp [keys])

theorem mem_keys_foldl (rows : List (Str × Nat)) :
    ∀ (acc : List (Str × Nat)) (a : Str),
      a ∈ keys (rows.foldl (fun d kv => dictSet d kv.1 kv.2) acc)
        ↔ a ∈ keys acc ∨ a ∈ keys rows := by
  induction rows with
  | nil => intro acc a; simp [keys]
  | cons kv t ih =>
    intro acc a
    simp only [List.foldl_cons]
    rw [ih]
    rw [mem_keys_dictSet]
    simp only [keys, List.map_cons, List.mem_cons]
    tauto

theorem mem_keys_buildDict (rows : List (Str × Nat)) (a : Str) :
    a ∈ keys (buildDict rows) ↔ a ∈ keys rows := by
  unfold buildDict
  rw [mem_keys_foldl]
  simp [keys]

theorem foldl_dictSet_eq_append (rows : List (Str × Nat)) :
    ∀ acc : List (Str × Nat), (keys rows).Nodup →
      (∀ a ∈ keys rows, a ∉ keys acc) →
      rows.foldl (fun d kv => dictSet d kv.1 kv.2) acc = acc ++ rows := by
  induction rows with
  | nil => intro acc _ _; simp
  | cons kv t ih =>
    intro acc hnd hdisj
    obtain ⟨k, v⟩ := kv
    simp only [keys, List.map_cons, List.nodup_cons] at hnd
    simp only [List.foldl_cons]
    rw [dictSet_eq_append_of_not_mem acc k v
      (hdisj k (by simp [keys]))]
    rw [ih (acc ++ [(k, v)]) hnd.2 ?_]
    · simp
    · intro a ha
      have h2 : a ≠ k := fun hak => hnd.1 (hak ▸ ha)
      have h1 : a ∉ keys acc :=
        hdisj a (by simp only [keys, List.map_cons, List.mem_cons]; exact Or.inr ha)
      simp only [keys, List.map_append] at h1 ⊢
      rw [List.mem_append]
      push_neg
      exact ⟨h1, by simpa using h2⟩

theorem buildDict_eq_self (d : List (Str × Nat)) (h : (keys d).Nodup) :
    buildDict d = d := by
  unfold buildDict
  rw [foldl_dictSet_eq_append d [] h (by simp [keys])]
  simp

theorem buildDict_add_incorrect_word (rec : List (Str × Nat)) (w : Str) :
    buildDict (add_incorrect_word rec w) = add_incorrect_word rec w :=
  buildDict_eq_self _ (nodup_keys_dictSet _ _ _ (nodup_keys_buildDict rec))

theorem storedCount_add_self (rec : List (Str × Nat)) (w : Str) :
    storedCount (add_incorrect_word rec w) w = storedCount rec w + 1 := by
  unfold storedCount
  rw [buildDict_add_incorrect_word]
  unfold add_incorrect_word
  exact dictGetD_dictSet_self _ _ _

theorem storedCount_add_ne (rec : List (Str × Nat)) (w w' : Str) (h : w' ≠ w) :
    storedCount (add_incorrect_word rec w) w' = storedCount rec w' := by
  unfold storedCount
  rw [buildDict_add_incorrect_word]
  unfold add_incorrect_word
  exact dictGetD_dictSet_ne _ _ _ _ h

/-! ### Lemmas about the translation store -/

theorem parseBody_ne_notFound (body : List (List Str)) :
    parseBody body ≠ Except.error LoadErr.notFound := by
  induction body with
  | nil => simp [parseBody]
  | cons r t ih =>
    match r with
    | [] => simp [parseBody]
    | [a] => simp [parseBody]
    | a :: b :: rr =>
      simp only [parseBody]
      cases h : parseBody t with
      | ok es => simp
      | error e =>
        rw [h] at ih
        simpa using ih

theorem parseBody_formatErr_iff (body : List (List Str)) :
    parseBody body = Except.error LoadErr.formatErr ↔ ∃ r ∈ body, r.length < 2 := by
  induction body with
  | nil => simp [parseBody]
  | cons r t ih =>
    match r with
    | [] => simp [parseBody]
    | [a] => simp [parseBody]
    | a :: b :: rr =>
      simp only [parseBody]
      cases h : parseBody t with
      | ok es =>
        rw [h] at ih
        simp only [reduceCtorEq, false_iff] at ih
        push_neg at ih
        simp only [reduceCtorEq, false_iff, List.mem_cons]
        push_neg
        intro x hx
        rcases hx with rfl | hx
        · simp only [List.length_cons]; omega
        · exact ih x hx
      | error e =>
        cases e with
        | notFound => exact absurd h (parseBody_ne_notFound t)
        | formatErr =>
          rw [h] at ih
          simp only [true_iff] at ih
          obtain ⟨x, hx, hlen⟩ := ih
          simp only [true_iff]
          exact ⟨x, List.mem_cons_of_mem _ hx, hlen⟩

theorem parseBody_ok_of (body : List (List Str)) (h : ∀ r ∈ body, 2 ≤ r.length) :
    parseBody body
      = Except.ok (body.map fun r => (pySplit 44 (r.headD []), pySplit 44 (r.tail.headD []))) := by
  induction body with
  | nil => simp [parseBody]
  | cons r t ih =>
    match r with
    | [] => exact absurd (h [] (List.mem_cons_self _ _)) (by simp)
    | [a] => exact absurd (h [a] (List.mem_cons_self _ _)) (by simp)
    | a :: b :: rr =>
      simp only [parseBody]
      rw [ih fun x hx => h x (List.mem_cons_of_mem _ hx)]
      simp

/-! ### Classification of user inputs, and the quiz-engine step lemmas -/

theorem tokS_ne_tokQ : ¬ tokS = tokQ := by decide

theorem tokAddWord_ne_tokQ : ¬ tokAddWord = tokQ := by decide

theorem tokAddWord_ne_tokS : ¬ tokAddWord = tokS := by decide

theorem entryLoop_quit (username prompt : Str) (answers : List Str) (attempts : Nat)
    (i : Str) (rest : List Str) (s : GState) (hq : quitInput i) (hn : attempts ≠ 0) :
    entryLoop username prompt answers attempts (i :: rest) s
      = ⟨EOut.quit, s, rest, [Msg.translatePrompt prompt, Msg.exitGame]⟩ := by
  unfold quitInput at hq
  match rest with
  | [] => simp [entryLoop, hn, hq]
  | [a] => simp [entryLoop, hn, hq]
  | a :: b :: t => simp [entryLoop, hn, hq]

theorem entryLoop_save (username prompt : Str) (answers : List Str) (attempts : Nat)
    (i : Str) (rest : List Str) (s : GState) (hs : saveInput i) (hn : attempts ≠ 0) :
    entryLoop username prompt answers attempts (i :: rest) s
      = (let r := entryLoop username prompt answers attempts rest
           { s with saved := save_word s.saved prompt (joinCS answers) }
         ⟨r.outcome, r.state, r.rest,
           Msg.translatePrompt prompt :: Msg.savedWord :: r.out⟩) := by
  unfold saveInput at hs
  match rest with
  | [] => simp [entryLoop, hn, hs, tokS_ne_tokQ]
  | [a] => simp [entryLoop, hn, hs, tokS_ne_tokQ]
  | a :: b :: t => simp [entryLoop, hn, hs, tokS_ne_tokQ]

theorem entryLoop_add (username prompt : Str) (answers : List Str) (attempts : Nat)
    (i e f : Str) (rest : List Str) (s : GState) (ha : addInput i) (hn : attempts ≠ 0) :
    entryLoop username prompt answers attempts (i :: e :: f :: rest) s
      = (let r := entryLoop username prompt answers attempts rest
           { s with saved := save_word s.saved e f }
         ⟨r.outcome, r.state, r.rest,
           Msg.translatePrompt prompt :: Msg.enterEnglish :: Msg.enterFrench ::
             Msg.addedWord :: r.out⟩) := by
  unfold addInput at ha
  simp [entryLoop, hn, ha, tokAddWord_ne_tokQ, tokAddWord_ne_tokS]

theorem entryLoop_correct (username prompt : Str) (answers : List Str) (attempts : Nat)
    (i : Str) (rest : List Str) (s : GState) (hc : correctInput i answers)
    (hn : attempts ≠ 0) :
    entryLoop username prompt answers attempts (i :: rest) s
      = ⟨EOut.done, s, rest, [Msg.translatePrompt prompt, Msg.correct]⟩ := by
  obtain ⟨h1, h2, h3, h4⟩ := hc
  unfold quitInput at h1
  unfold saveInput at h2
  unfold addInput at h3
  match rest with
  | [] => simp [entryLoop, hn, h1, h2, h3, h4]
  | [a] => simp [entryLoop, hn, h1, h2, h3, h4]
  | a :: b :: t => simp [entryLoop, hn, h1, h2, h3, h4]

theorem entryLoop_wrong_step (username prompt : Str) (answers : List Str) (attempts : Nat)
    (i : Str) (rest : List Str) (s : GState) (hw : wrongInput i answers)
    (hn : 2 ≤ attempts) :
    entryLoop username prompt answers attempts (i :: rest) s
      = (let r := entryLoop username prompt answers (attempts - 1) rest
           { s with progress := add_incorrect_word s.progress prompt }
         ⟨r.outcome, r.state, r.rest,
           Msg.translatePrompt prompt :: Msg.wrongAttempts (attempts - 1) :: r.out⟩) := by
  obtain ⟨h1, h2, h3, h4⟩ := hw
  unfold quitInput at h1
  unfold saveInput at h2
  unfold addInput at h3
  have hn0 : ¬ attempts = 0 := by omega
  have hn1 : ¬ attempts - 1 = 0 := by omega
  match rest with
  | [] => simp [entryLoop, hn0, hn1, h1, h2, h3, h4]
  | [a] => simp [entryLoop, hn0, hn1, h1, h2, h3, h4]
  | a :: b :: t => simp [entryLoop, hn0, hn1, h1, h2, h3, h4]

theorem entryLoop_wrong_last (username prompt : Str) (answers : List Str)
    (i : Str) (rest : List Str) (s : GState) (hw : wrongInput i answers) :
    entryLoop username prompt answers 1 (i :: rest) s
      = ⟨EOut.done, { s with progress := add_incorrect_word s.progress prompt }, rest,
         [Msg.translatePrompt prompt, Msg.wrongReveal (joinCS answers)]⟩ := by
  obtain ⟨h1, h2, h3, h4⟩ := hw
  unfold quitInput at h1
  unfold saveInput at h2
  unfold addInput at h3
  match rest with
  | [] => simp [entryLoop, h1, h2, h3, h4]
  | [a] => simp [entryLoop, h1, h2, h3, h4]
  | a :: b :: t => simp [entryLoop, h1, h2, h3, h4]

/-! ### Claims C1 to C5 -/

/-- Claim C1: for every translation entry (with its two nonempty groups)
and every valid direction choice, `get_prompt_answer` returns a prompt
that is an element of the direction's source group and the
accepted-answer set equal to the other group: with direction `"1"` the
prompt is some element of the entry's phrases and the accepted set is
exactly its translations; with direction `"2"` the prompt is some
element of the entry's translations and the accepted set is exactly its
phrases. -/
theorem c1_get_prompt_answer (eng tr : List Str) (k : Nat)
    (he : eng ≠ []) (ht : tr ≠ []) :
    ((get_prompt_answer tokOne eng tr k).1 ∈ eng
      ∧ (get_prompt_answer tokOne eng tr k).2 = tr)
    ∧ ((get_prompt_answer tokTwo eng tr k).1 ∈ tr
      ∧ (get_prompt_answer tokTwo eng tr k).2 = eng) := by
  have hgd : ∀ (l : List Str), l ≠ [] → ∀ n, l.getD (n % l.length) [] ∈ l := by
    intro l hl n
    have hlen : 0 < l.length := List.length_pos.mpr hl
    have hlt : n % l.length < l.length := Nat.mod_lt _ hlen
    rw [List.getD_eq_getElem?_getD, List.getElem?_eq_getElem hlt]
    simp [List.getElem_mem]
  have hne : ¬ (tokTwo = tokOne) := by decide
  refine ⟨⟨?_, ?_⟩, ⟨?_, ?_⟩⟩
  · simp only [get_prompt_answer, if_pos rfl]
    exact hgd eng he k
  · simp [get_prompt_answer]
  · simp only [get_prompt_answer, if_neg hne]
    exact hgd tr ht k
  · simp [get_prompt_answer, hne]

theorem c1_witness :
    ((get_prompt_answer tokOne [[97]] [[98]] 0).1 ∈ [[97]]
      ∧ (get_prompt_answer tokOne [[97]] [[98]] 0).2 = [[98]])
    ∧ ((get_prompt_answer tokTwo [[97]] [[98]] 0).1 ∈ [[98]]
      ∧ (get_prompt_answer tokTwo [[97]] [[98]] 0).2 = [[97]]) :=
  c1_get_prompt_answer [[97]] [[98]] 0 (by decide) (by decide)

/-- Claim C2: `add_incorrect_word` increments the stored count of the
given word by exactly 1, creating it at 1 if absent; calling it twice
yields a count greater by 2; the stored count of every other word is
unchanged, and every word present before the call is still present in
the rewritten record. -/
theorem c2_record_incorrect (rec : List (Str × Nat)) (w w' : Str) (hne : w' ≠ w) :
    storedCount (add_incorrect_word rec w) w = storedCount rec w + 1
    ∧ (w ∉ keys rec → storedCount (add_incorrect_word rec w) w = 1)
    ∧ storedCount (add_incorrect_word (add_incorrect_word rec w) w) w
        = storedCount rec w + 2
    ∧ storedCount (add_incorrect_word rec w) w' = storedCount rec w'
    ∧ (w' ∈ keys rec → w' ∈ keys (add_incorrect_word rec w)) := by
  refine ⟨storedCount_add_self rec w, ?_, ?_, storedCount_add_ne rec w w' hne, ?_⟩
  · intro habs
    rw [storedCount_add_self]
    have h0 : storedCount rec w = 0 := by
      unfold storedCount
      apply dictGetD_eq_default_of_not_mem
      rw [mem_keys_buildDict]
      exact habs
    omega
  · rw [storedCount_add_self, storedCount_add_self]
  · intro hmem
    unfold add_incorrect_word
    exact (mem_keys_dictSet _ _ _ _).mpr
      (Or.inl ((mem_keys_buildDict rec w').mpr hmem))

theorem c2_witness :
    storedCount (add_incorrect_word [([99], 5), ([100], 7)] [99]) [99] = 6
    ∧ storedCount
        (add_incorrect_word (add_incorrect_word [([99], 5), ([100], 7)] [99]) [99]) [99] = 7
    ∧ storedCount (add_incorrect_word [([99], 5), ([100], 7)] [99]) [100] = 7 := by
  have h := c2_record_incorrect ([([99], 5), ([100], 7)] : List (Str × Nat))
    [99] [100] (by decide)
  exact ⟨h.1.trans (by decide), h.2.2.1.trans (by decide), h.2.2.2.1.trans (by decide)⟩

/-- Claim C3 counterexample: normalization is not idempotent. On the
string `"a. "` one pass yields `"a."` (the trailing space hides the dot
from `rstrip("...")`), and a second pass yields `"a"`. -/
theorem c3_counterexample :
    normalize (normalize [97, 46, 32]) ≠ normalize [97, 46, 32] := by decide

/-- Claim C3 (amended): the normalization (lowercase, strip trailing
dots, strip surrounding whitespace) is idempotent on every string whose
normalized form does not end in a dot; in general a trailing
"dot before whitespace" makes a second pass strip further. -/
theorem c3_normalize_idem (s : Str) (h : (normalize s).getLast? ≠ some 46) :
    normalize (normalize s) = normalize s := by
  have hlow := pyLower_normalize s
  have hdot : pyRstripDots (normalize s) = normalize s := by
    apply rdropWhile_eq_self_of_revhead
    intro c hc
    have hl : (normalize s).getLast? = some c := by
      rw [← List.head?_reverse]; exact hc
    have hc46 : c ≠ 46 := fun hceq => h (hceq ▸ hl)
    simp [isDotChar, hc46]
  have hstr : pyStrip (normalize s) = normalize s :=
    pyStrip_pyStrip (pyRstripDots (pyLower s))
  show pyStrip (pyRstripDots (pyLower (normalize s))) = normalize s
  rw [hlow, hdot, hstr]

theorem c3_witness :
    (normalize [97, 46]).getLast? ≠ some 46
    ∧ normalize (normalize [97, 46]) = normalize [97, 46] :=
  ⟨by decide, c3_normalize_idem [97, 46] (by decide)⟩

/-- Claim C4 counterexample: a non-header record with three fields
cannot be split into exactly two phrase/translation groups, yet
`load_dictionary` succeeds on it (the extra field is silently ignored),
so the claimed "fails if and only if" equivalence is false. -/
theorem c4_counterexample :
    (([[98], [99], [100]] : List Str).length ≠ 2)
    ∧ load_dictionary (some [[[97]], [[98], [99], [100]]])
        = Except.ok [([[98]], [[99]])] := by
  constructor
  · decide
  · rfl

/-- Claim C4 (amended): loading fails with the not-found error exactly
when the file is missing; with the file present it fails with a format
error if and only if the file has no records at all (so the header read
raises) or some non-header record has fewer than two fields — records
with more than two fields are accepted, the extra fields ignored; and
otherwise it returns, in order, one entry per non-header record, the
first two fields split on commas, with the header record trimmed. -/
theorem c4_load_dictionary (rows : List (List Str)) :
    load_dictionary none = Except.error LoadErr.notFound
    ∧ load_dictionary (some rows) ≠ Except.error LoadErr.notFound
    ∧ (load_dictionary (some rows) = Except.error LoadErr.formatErr
        ↔ rows = [] ∨ ∃ r ∈ rows.tail, r.length < 2)
    ∧ (rows ≠ [] → (∀ r ∈ rows.tail, 2 ≤ r.length) →
        load_dictionary (some rows)
          = Except.ok (rows.tail.map fun r =>
              (pySplit 44 (r.headD []), pySplit 44 (r.tail.headD [])))) := by
  refine ⟨rfl, ?_, ?_, ?_⟩
  · match rows with
    | [] => simp [load_dictionary]
    | h :: body => simpa [load_dictionary] using parseBody_ne_notFound body
  · match rows with
    | [] => simp [load_dictionary]
    | h :: body =>
      simp only [load_dictionary, List.tail_cons]
      rw [parseBody_formatErr_iff]
      simp
  · intro hne hlen
    match rows with
    | [] => exact absurd rfl hne
    | h :: body =>
      simp only [load_dictionary, List.tail_cons]
      exact parseBody_ok_of body (by simpa using hlen)

theorem c4_witness :
    load_dictionary (some [[[104]], [[97], [98]]]) = Except.ok [([[97]], [[98]])] := by
  have h := (c4_load_dictionary [[[104]], [[97], [98]]]).2.2.2 (by decide) (by decide)
  exact h.trans (by rfl)

/-- Claim C5 counterexample: `create_user_files` keys only on the
progress file. If the progress file exists but the personal dictionary
file does not, the call changes nothing and the dictionary file still
does not exist afterwards; and if the progress file is missing, an
existing personal dictionary file is overwritten with a header-only
file rather than left alone. -/
theorem c5_counterexample :
    (create_user_files { progressFile := some [], dictFile := none }).dictFile = none
    ∧ create_user_files { progressFile := none, dictFile := some [([97], [98])] }
        = { progressFile := some [], dictFile := some [] } := by
  constructor <;> rfl

/-- Claim C5 (amended): `create_user_files` tests only the progress
file: when it is absent, header-only progress and personal-dictionary
files are both written (overwriting any existing dictionary file); when
it exists, neither file is touched — so a missing progress file is never
an error and the progress file always exists after the call, but a
missing dictionary file is created only in the first case. -/
theorem c5_create_user_files (fs : FS) :
    (fs.progressFile = none →
      create_user_files fs = { progressFile := some [], dictFile := some [] })
    ∧ (∀ p, fs.progressFile = some p → create_user_files fs = fs)
    ∧ ((create_user_files fs).progressFile).isSome := by
  obtain ⟨pf, df⟩ := fs
  cases pf <;> simp [create_user_files]

theorem c5_witness :
    create_user_files { progressFile := none, dictFile := none }
      = { progressFile := some [], dictFile := some [] } :=
  (c5_create_user_files { progressFile := none, dictFile := none }).1 rfl

/-! ### Claims C6 to C10 -/

/-- Claim C6: whenever the user's (pre-processed, lowercased, stripped)
input is the quit token `q`, the quiz loop terminates the whole session
immediately: inside an entry, at any positive remaining-attempt count,
the loop returns at once with the store state unchanged, consuming no
further input and printing nothing beyond the already-printed prompt
and the exit message; and at the session level no further entry is
processed and no further store write occurs, so already-persisted
progress is left unchanged. -/
theorem c6_quit_terminates (i : Str) (hq : quitInput i) :
    (∀ username prompt answers attempts rest s, attempts ≠ 0 →
      entryLoop username prompt answers attempts (i :: rest) s
        = ⟨EOut.quit, s, rest, [Msg.translatePrompt prompt, Msg.exitGame]⟩)
    ∧ (∀ username choice eng tr es picks rest s,
      play_game username choice ((eng, tr) :: es) picks (i :: rest) s
        = (s, [Msg.translatePrompt (get_prompt_answer choice eng tr (picks.headD 0)).1,
               Msg.exitGame])) := by
  refine ⟨fun username prompt answers attempts rest s hn =>
      entryLoop_quit username prompt answers attempts i rest s hq hn, ?_⟩
  intro username choice eng tr es picks rest s
  simp only [play_game]
  rw [entryLoop_quit _ _ _ 3 i rest s hq (by omega)]

theorem c6_witness :
    quitInput tokQ
    ∧ play_game [117] tokOne [([[97]], [[98]])] [0] [tokQ] ⟨[], []⟩
        = (⟨[], []⟩, [Msg.translatePrompt [97], Msg.exitGame]) := by
  refine ⟨by decide, ?_⟩
  have h := (c6_quit_terminates tokQ (by decide)).2 [117] tokOne [[97]] [[98]] [] [0] [] ⟨[], []⟩
  exact h.trans (by decide)

/-- Claim C7: on each wrong (non-reserved, non-matching) answer the
engine decrements the remaining attempts by exactly 1 and records the
canonical prompt in the progress store; with attempts remaining it
re-prompts the same entry, after three consecutive wrong answers it
reveals the full accepted-answer set and finishes the entry, and at the
session level it then advances to the next entry. -/
theorem c7_wrong_answer (answers : List Str) (i : Str) (hw : wrongInput i answers) :
    (∀ username prompt attempts rest s, 2 ≤ attempts →
      entryLoop username prompt answers attempts (i :: rest) s
        = (let r := entryLoop username prompt answers (attempts - 1) rest
             { s with progress := add_incorrect_word s.progress prompt }
           ⟨r.outcome, r.state, r.rest,
             Msg.translatePrompt prompt :: Msg.wrongAttempts (attempts - 1) :: r.out⟩))
    ∧ (∀ username prompt rest s,
      entryLoop username prompt answers 1 (i :: rest) s
        = ⟨EOut.done, { s with progress := add_incorrect_word s.progress prompt }, rest,
           [Msg.translatePrompt prompt, Msg.wrongReveal (joinCS answers)]⟩)
    ∧ (∀ username prompt i2 i3 rest s,
      wrongInput i2 answers → wrongInput i3 answers →
      entryLoop username prompt answers 3 (i :: i2 :: i3 :: rest) s
        = ⟨EOut.done,
           { s with progress :=
               add_incorrect_word (add_incorrect_word
                 (add_incorrect_word s.progress prompt) prompt) prompt },
           rest,
           [Msg.translatePrompt prompt, Msg.wrongAttempts 2,
            Msg.translatePrompt prompt, Msg.wrongAttempts 1,
            Msg.translatePrompt prompt, Msg.wrongReveal (joinCS answers)]⟩)
    ∧ (∀ username choice eng tr es picks i2 i3 rest s,
      (get_prompt_answer choice eng tr (picks.headD 0)).2 = answers →
      wrongInput i2 answers → wrongInput i3 answers →
      play_game username choice ((eng, tr) :: es) picks (i :: i2 :: i3 :: rest) s
        = (let p := (get_prompt_answer choice eng tr (picks.headD 0)).1
           let s3 : GState :=
             { s with progress :=
                 add_incorrect_word (add_incorrect_word
                   (add_incorrect_word s.progress p) p) p }
           let nxt := play_game username choice es picks.tail rest s3
           (nxt.1,
            [Msg.translatePrompt p, Msg.wrongAttempts 2,
             Msg.translatePrompt p, Msg.wrongAttempts 1,
             Msg.translatePrompt p, Msg.wrongReveal (joinCS answers)] ++ nxt.2))) := by
  have hstep := fun username prompt attempts i' rest s (hw' : wrongInput i' answers)
      (hn : 2 ≤ attempts) =>
    entryLoop_wrong_step username prompt answers attempts i' rest s hw' hn
  have hthree : ∀ username prompt i2 i3 rest s,
      wrongInput i2 answers → wrongInput i3 answers →
      entryLoop username prompt answers 3 (i :: i2 :: i3 :: rest) s
        = ⟨EOut.done,
           { s with progress :=
               add_incorrect_word (add_incorrect_word
                 (add_incorrect_word s.progress prompt) prompt) prompt },
           rest,
           [Msg.translatePrompt prompt, Msg.wrongAttempts 2,
            Msg.translatePrompt prompt, Msg.wrongAttempts 1,
            Msg.translatePrompt prompt, Msg.wrongReveal (joinCS answers)]⟩ := by
    intro username prompt i2 i3 rest s hw2 hw3
    rw [hstep username prompt 3 i (i2 :: i3 :: rest) s hw (by omega)]
    simp only []
    rw [hstep username prompt (3 - 1) i2 (i3 :: rest) _ hw2 (by omega)]
    simp only []
    rw [show (3 : Nat) - 1 - 1 = 1 from rfl,
      entryLoop_wrong_last username prompt answers i3 rest _ hw3]
  refine ⟨fun username prompt attempts rest s hn =>
      hstep username prompt attempts i rest s hw hn,
    fun username prompt rest s =>
      entryLoop_wrong_last username prompt answers i rest s hw,
    hthree, ?_⟩
  intro username choice eng tr es picks i2 i3 rest s hpa hw2 hw3
  simp only [play_game]
  rw [show (get_prompt_answer choice eng tr (picks.headD 0)).2 = answers from hpa]
  rw [hthree username (get_prompt_answer choice eng tr (picks.headD 0)).1 i2 i3 rest s
    hw2 hw3]

theorem c7_witness :
    wrongInput [122] [[97]]
    ∧ entryLoop [117] [112] [[97]] 3 [[122], [122], [122]] ⟨[], []⟩
        = ⟨EOut.done, ⟨[([112], 3)], []⟩, [],
           [Msg.translatePrompt [112], Msg.wrongAttempts 2,
            Msg.translatePrompt [112], Msg.wrongAttempts 1,
            Msg.translatePrompt [112], Msg.wrongReveal [97]]⟩ := by
  refine ⟨by decide, ?_⟩
  have h := (c7_wrong_answer [[97]] [122] (by decide)).2.2.1 [117] [112] [122] [122] []
    ⟨[], []⟩ (by decide) (by decide)
  exact h.trans (by decide)

/-- Claim C8: the reserved inputs `s` and `add word` persist to the
personal dictionary store (the current prompt with its joined answer
set, respectively the interactively collected pair) and then continue
the same entry's loop with the same prompt and the same remaining
attempt count, so no attempt is consumed and neither the current entry
nor its prompt changes; the progress store is untouched. -/
theorem c8_save_actions (i : Str) :
    (saveInput i → ∀ username prompt answers attempts rest s, attempts ≠ 0 →
      entryLoop username prompt answers attempts (i :: rest) s
        = (let r := entryLoop username prompt answers attempts rest
             { s with saved := save_word s.saved prompt (joinCS answers) }
           ⟨r.outcome, r.state, r.rest,
             Msg.translatePrompt prompt :: Msg.savedWord :: r.out⟩))
    ∧ (addInput i → ∀ username prompt answers attempts e f rest s, attempts ≠ 0 →
      entryLoop username prompt answers attempts (i :: e :: f :: rest) s
        = (let r := entryLoop username prompt answers attempts rest
             { s with saved := save_word s.saved e f }
           ⟨r.outcome, r.state, r.rest,
             Msg.translatePrompt prompt :: Msg.enterEnglish :: Msg.enterFrench ::
               Msg.addedWord :: r.out⟩)) :=
  ⟨fun hs username prompt answers attempts rest s hn =>
     entryLoop_save username prompt answers attempts i rest s hs hn,
   fun ha username prompt answers attempts e f rest s hn =>
     entryLoop_add username prompt answers attempts i e f rest s ha hn⟩

theorem c8_witness :
    saveInput tokS
    ∧ entryLoop [117] [112] [[97]] 3 [tokS, [97]] ⟨[], []⟩
        = ⟨EOut.done, ⟨[], [([112], [97])]⟩, [],
           [Msg.translatePrompt [112], Msg.savedWord,
            Msg.translatePrompt [112], Msg.correct]⟩ := by
  refine ⟨by decide, ?_⟩
  have h := (c8_save_actions tokS).1 (by decide) [117] [112] [[97]] 3 [[97]] ⟨[], []⟩
    (by decide)
  exact h.trans (by decide)

/-- The direction retry loop: every invalid input prints the invalid
notice and is skipped, and the first valid (stripped) input is
returned together with the unconsumed inputs. -/
theorem selDirLoop_spec (bad : List Str) (good : Str) (rest : List Str)
    (hb : ∀ b ∈ bad, ¬(pyStrip b = tokOne ∨ pyStrip b = tokTwo))
    (hg : pyStrip good = tokOne ∨ pyStrip good = tokTwo) :
    selDirLoop (bad ++ good :: rest)
      = (some (pyStrip good, rest), bad.map fun _ => Msg.invalidChoice) := by
  induction bad with
  | nil =>
    simp only [List.nil_append, selDirLoop, List.map_nil]
    rw [if_pos hg]
  | cons b t ih =>
    have hbb := hb b (List.mem_cons_self _ _)
    have ih' : selDirLoop (t.append (good :: rest))
        = (some (pyStrip good, rest), List.map (fun _ => Msg.invalidChoice) t) :=
      ih fun x hx => hb x (List.mem_cons_of_mem _ hx)
    simp only [List.cons_append, selDirLoop, List.map_cons]
    rw [if_neg hbb, ih']

/-- Claim C9 counterexample: a complete session run, shown with its full
output trace. The trace is exactly instructions, username prompt,
welcome message, direction menu, invalid-choice notice, one quiz prompt
and the exit message; its last element is the quiz engine's exit
message, so nothing at all — in particular no final summary — is
printed after the quiz engine returns. -/
theorem c9_counterexample :
    mainRun [117] [[120], [49], [113]] (some [[[104]], [[97], [98]]]) id [0]
        ⟨none, none⟩
      = (MainEnd.finished ⟨[], []⟩,
         [Msg.instructions, Msg.usernamePrompt, Msg.welcomeNew [117], Msg.directionMenu,
          Msg.invalidChoice, Msg.translatePrompt [97], Msg.exitGame])
    ∧ (mainRun [117] [[120], [49], [113]] (some [[[104]], [[97], [98]]]) id [0]
        ⟨none, none⟩).2.getLast? = some Msg.exitGame := by decide

/-- Claim C9 (amended): the session controller executes the startup
sequence in the stated order — print instructions, prompt for username,
initialize the user's per-user files, prompt for the translation
direction repeating until a valid stripped choice is entered, load the
translation store, reorder the entries, and run the quiz engine on the
remaining inputs — and then terminates directly after the quiz engine
returns, printing no final summary. -/
theorem c9_main_sequence (u : Str) (bad : List Str) (good : Str) (rest : List Str)
    (file : Option (List (List Str))) (shuffleFn : List Entry → List Entry)
    (picks : List Nat) (fs : FS)
    (hb : ∀ b ∈ bad, ¬(pyStrip b = tokOne ∨ pyStrip b = tokTwo))
    (hg : pyStrip good = tokOne ∨ pyStrip good = tokTwo) :
    select_translation_direction (bad ++ good :: rest)
      = (some (pyStrip good, rest),
         Msg.directionMenu :: bad.map fun _ => Msg.invalidChoice)
    ∧ (∀ entries, load_dictionary file = Except.ok entries →
      mainRun u (bad ++ good :: rest) file shuffleFn picks fs
        = (MainEnd.finished
             (play_game u (pyStrip good) (shuffleFn entries) picks rest
               (initState (create_user_files fs))).1,
           ([Msg.instructions, Msg.usernamePrompt] ++ welcomeMsgs u fs
             ++ Msg.directionMenu :: bad.map (fun _ => Msg.invalidChoice))
             ++ (play_game u (pyStrip good) (shuffleFn entries) picks rest
                 (initState (create_user_files fs))).2)) := by
  have hsel : select_translation_direction (bad ++ good :: rest)
      = (some (pyStrip good, rest),
         Msg.directionMenu :: bad.map fun _ => Msg.invalidChoice) := by
    unfold select_translation_direction
    rw [selDirLoop_spec bad good rest hb hg]
  refine ⟨hsel, ?_⟩
  intro entries hload
  simp only [mainRun, hsel, hload]

theorem c9_witness :
    mainRun [117] [[120], [49], [113]] (some [[[104]], [[97], [98]]]) id [0]
        { progressFile := some [([99], 4)], dictFile := some [] }
      = (MainEnd.finished ⟨[([99], 4)], []⟩,
         [Msg.instructions, Msg.usernamePrompt, Msg.welcomeBack [117], Msg.directionMenu,
          Msg.invalidChoice, Msg.translatePrompt [97], Msg.exitGame]) := by
  have h := (c9_main_sequence [117] [[120]] [49] [[113]] (some [[[104]], [[97], [98]]])
    id [0] { progressFile := some [([99], 4)], dictFile := some [] }
    (by decide) (by decide)).2 [([[97]], [[98]])] (by rfl)
  exact h.trans (by decide)

/-- Claim C10 counterexample: the accepted answer `"q"` normalizes to
the reserved quit token, yet the CORRECT outcome is reachable for it:
typing `"q. "` passes the reserved-token checks (its pre-check form is
`"q."`) while its fully normalized form is `"q"`, which matches, so the
entry ends with the correct-answer outcome. -/
theorem c10_counterexample :
    normalize [113] = tokQ
    ∧ ([113] : Str) ∈ ([[113]] : List Str)
    ∧ entryLoop [117] [112] [[113]] 3 [[113, 46, 32]] ⟨[], []⟩
        = ⟨EOut.done, ⟨[], []⟩, [], [Msg.translatePrompt [112], Msg.correct]⟩ := by
  decide

/-- Claim C10 (amended): the reserved-token checks are performed before
answer matching on the pre-check form, which provably equals the fully
normalized input; hence typing an accepted answer that normalizes to a
reserved token always triggers the reserved action, for each of the
three tokens `q`, `s` and `add word`. However the CORRECT outcome is
not unreachable for such an answer: an input whose pre-check form
differs from the token but whose normalized form matches (such as
`"s. "` against accepted answer `"s"`) still ends the entry with the
correct-answer outcome. -/
theorem c10_reserved_before_match (a : Str) :
    pyStrip (pyLower (pyStrip (pyRstripDots a))) = normalize a
    ∧ (normalize a = tokQ → ∀ username prompt answers attempts rest s, attempts ≠ 0 →
        entryLoop username prompt answers attempts (a :: rest) s
          = ⟨EOut.quit, s, rest, [Msg.translatePrompt prompt, Msg.exitGame]⟩)
    ∧ (normalize a = tokS → ∀ username prompt answers attempts rest s, attempts ≠ 0 →
        entryLoop username prompt answers attempts (a :: rest) s
          = (let r := entryLoop username prompt answers attempts rest
               { s with saved := save_word s.saved prompt (joinCS answers) }
             ⟨r.outcome, r.state, r.rest,
               Msg.translatePrompt prompt :: Msg.savedWord :: r.out⟩))
    ∧ (normalize a = tokAddWord →
        ∀ username prompt answers attempts e f rest s, attempts ≠ 0 →
        entryLoop username prompt answers attempts (a :: e :: f :: rest) s
          = (let r := entryLoop username prompt answers attempts rest
               { s with saved := save_word s.saved e f }
             ⟨r.outcome, r.state, r.rest,
               Msg.translatePrompt prompt :: Msg.enterEnglish :: Msg.enterFrench ::
                 Msg.addedWord :: r.out⟩))
    ∧ entryLoop [117] [112] [[115]] 2 [[115, 46, 32]] ⟨[], []⟩
        = ⟨EOut.done, ⟨[], []⟩, [], [Msg.translatePrompt [112], Msg.correct]⟩ := by
  refine ⟨checkForm_eq_normalize a, ?_, ?_, ?_, by decide⟩
  · intro hq username prompt answers attempts rest s hn
    exact entryLoop_quit username prompt answers attempts a rest s
      (by unfold quitInput; rw [checkForm_eq_normalize]; exact hq) hn
  · intro hs username prompt answers attempts rest s hn
    exact entryLoop_save username prompt answers attempts a rest s
      (by unfold saveInput; rw [checkForm_eq_normalize]; exact hs) hn
  · intro ha username prompt answers attempts e f rest s hn
    exact entryLoop_add username prompt answers attempts a e f rest s
      (by unfold addInput; rw [checkForm_eq_normalize]; exact ha) hn

theorem c10_witness :
    normalize tokQ = tokQ
    ∧ entryLoop [117] [112, 50] [[97]] 2 [tokQ, [97]] ⟨[], []⟩
        = ⟨EOut.quit, ⟨[], []⟩, [[97]],
           [Msg.translatePrompt [112, 50], Msg.exitGame]⟩ := by
  refine ⟨by decide, ?_⟩
  exact (c10_reserved_before_match tokQ).2.1 (by decide) [117] [112, 50] [[97]] 2 [[97]]
    ⟨[], []⟩ (by decide)

end LangTool
